import Mathlib

/-!
# Verification of the autoleveler-visualizer core (`src/app.py`)

Shallow embedding of the point-to-grid reconstruction, outlier-filtering and
diffing engine of `src/app.py`.  Coordinates and heights are modelled as exact
rationals `ℚ` (the idealisation of the program's float64 values used throughout
the specification); text is modelled as `String`, processed through its
character list.  The Python built-in `float()` conversion is not part of the
repository, so the parser is parametrised by a conversion function
`toFloat : List Char → Option ℚ` (`None` models a `ValueError`); a small
concrete integer parser `parseQ` instantiates it for concrete test inputs.

The outlier band test `mean - std_dev <= z <= mean + std_dev` of
`src/app.py:135` (with `std_dev = variance ** 0.5`) is embedded as the exactly
equivalent square comparison `(z - mean)^2 <= variance`, which keeps the
development inside `ℚ` and hence executable; theorem `sq_le_iff_band` proves
the equivalence with the `Real.sqrt` formulation, and the claim theorems state
the band with `Real.sqrt`.  Likewise the reported `rms` value
(`src/app.py:252`) is `Real.sqrt` of the stored rational field `rms_sq`.
-/

deriving instance DecidableEq for Except

namespace Autoleveler

/-- A parsed point `{'x': x, 'y': y, 'z': z}` (`src/app.py:30`). -/
structure Point where
  x : ℚ
  y : ℚ
  z : ℚ
deriving DecidableEq, Repr

/-- The dictionary key `(p['x'], p['y'])` used for coordinate maps. -/
def coordOf (p : Point) : ℚ × ℚ := (p.x, p.y)

/-- The default point used for safe list indexing in statements. -/
def pd : Point := ⟨0, 0, 0⟩

/-! ## Point parser (`parse_xyz_file`, `src/app.py:16-33`) -/

/-- Helper for `splitWs`: accumulates the current token (reversed) and the
finished tokens (reversed). -/
def splitWsAux (cur : List Char) (acc : List (List Char)) : List Char → List (List Char)
  | [] => if cur = [] then acc.reverse else (cur.reverse :: acc).reverse
  | c :: rest =>
    if c.isWhitespace then
      if cur = [] then splitWsAux [] acc rest
      else splitWsAux [] (cur.reverse :: acc) rest
    else splitWsAux (c :: cur) acc rest

/-- Python `str.split()` with no argument: split on runs of whitespace,
discarding empty tokens (`src/app.py:24`). -/
def splitWs (l : List Char) : List (List Char) := splitWsAux [] [] l

/-- Python `str.strip()`: remove leading and trailing whitespace
(`src/app.py:21`). -/
def trimChars (l : List Char) : List Char :=
  ((l.dropWhile Char.isWhitespace).reverse.dropWhile Char.isWhitespace).reverse

/-- The whitespace-run tokens of a line. -/
def tokensOf (line : String) : List (List Char) := splitWs line.toList

/-- One iteration of the parse loop (`src/app.py:20-32`): strip the line, skip
it when blank, split it, and when it has at least 3 tokens whose first three
all convert, emit a point; any failure skips the line. -/
def parseLine (toFloat : List Char → Option ℚ) (line : String) : Option Point :=
  let s := trimChars line.toList
  if s = [] then none
  else
    let parts := splitWs s
    if 3 ≤ parts.length then
      match toFloat (parts.getD 0 []), toFloat (parts.getD 1 []), toFloat (parts.getD 2 []) with
      | some x, some y, some z => some ⟨x, y, z⟩
      | _, _, _ => none
    else none

/-- `parse_xyz_file` (`src/app.py:16-33`): the file content as a list of
lines, each processed by `parseLine`, keeping the successful lines in order. -/
def parse_xyz_file (toFloat : List Char → Option ℚ) (lines : List String) : List Point :=
  lines.filterMap (parseLine toFloat)

/-- A concrete instantiation of the float conversion: an optionally signed
decimal integer.  Used for concrete witness inputs. -/
def parseNatDigits : List Char → Option ℕ
  | [] => none
  | [c] => if c.isDigit then some (c.toNat - 48) else none
  | c :: rest =>
    if c.isDigit then
      match parseNatDigits rest with
      | some n => some ((c.toNat - 48) * 10 ^ rest.length + n)
      | none => none
    else none

/-- A concrete instantiation of the float conversion: an optionally signed
decimal integer.  Used for concrete witness inputs. -/
def parseQ (l : List Char) : Option ℚ :=
  match l with
  | '-' :: rest => (parseNatDigits rest).map (fun n => -(n : ℚ))
  | _ => (parseNatDigits l).map (fun n => (n : ℚ))

/-! ## Grid builder (`src/app.py:144-155` and `src/app.py:232-243`) -/

/-- The coordinate map `{(p['x'], p['y']): p['z'] for p in points}`
(`src/app.py:149`): the *last* point with a given `(x, y)` wins, hence the
lookup scans the reversed list. -/
def point_map (points : List Point) (c : ℚ × ℚ) : Option ℚ :=
  (points.reverse.find? (fun p => decide (coordOf p = c))).map Point.z

/-- `sorted(set(xs))`: the ascending list of the distinct elements of `xs`. -/
def sortedDistinct (xs : List ℚ) : List ℚ :=
  List.insertionSort (· ≤ ·) xs.dedup

/-- `sorted(set(p['x'] for p in points))` (`src/app.py:144`). -/
def x_values (points : List Point) : List ℚ :=
  sortedDistinct (points.map Point.x)

/-- `sorted(set(p['y'] for p in points))` (`src/app.py:145`). -/
def y_values (points : List Point) : List ℚ :=
  sortedDistinct (points.map Point.y)

/-- The row-major grid of `point_map.get((x, y), None)` cells
(`src/app.py:148-155`): one row per `y` value, one column per `x` value. -/
def z_grid (points : List Point) : List (List (Option ℚ)) :=
  (y_values points).map (fun y => (x_values points).map (fun x => point_map points (x, y)))

/-! ## Outlier filter (`src/app.py:124-138` and `src/app.py:213-227`) -/

/-- `sum(values) / len(values)` (`src/app.py:126`). -/
def listMean (zs : List ℚ) : ℚ := zs.sum / zs.length

/-- `sum((z - mean) ** 2 for z in values) / len(values)` — the population
variance (`src/app.py:127`). -/
def listVariance (zs : List ℚ) : ℚ :=
  ((zs.map (fun z => (z - listMean zs) ^ 2)).sum) / zs.length

/-- The band test `lower_bound <= p['z'] <= upper_bound` with
`std_dev = variance ** 0.5` (`src/app.py:128-136`), rendered by the exact
equivalence `mean - √v ≤ z ≤ mean + √v ↔ (z - mean)² ≤ v` (see
`sq_le_iff_band`) to stay inside `ℚ`. -/
def filterPoints (points : List Point) : List Point :=
  let zs := points.map Point.z
  let mean := listMean zs
  let variance := listVariance zs
  points.filter (fun p => decide ((p.z - mean) ^ 2 ≤ variance))

/-- The filter step shared by both pipelines (`src/app.py:124,138` and
`src/app.py:213,227`): applied only when requested and when more than one
element is present. -/
def surviving (filter_outliers : Bool) (points : List Point) : List Point :=
  if filter_outliers = true ∧ 1 < points.length then filterPoints points else points

/-- `outliers_removed` (`src/app.py:121,137` and `src/app.py:210,226`):
`len(points) - len(filtered_points)` when the filter ran, `0` otherwise
(the two coincide, since the filter keeps a sublist). -/
def removedCount (filter_outliers : Bool) (points : List Point) : ℕ :=
  points.length - (surviving filter_outliers points).length

/-! ## Pipelines -/

/-- The two structured pipeline failures of §7 of the spec:
`EmptyResult` is `'No points remaining after filtering'`
(`src/app.py:141,230`), `NoOverlap` is
`'No matching coordinates between files'` (`src/app.py:201`). -/
inductive PipelineError where
  | emptyResult
  | noOverlap
deriving DecidableEq, Repr

/-- The successful JSON payload of `/data` (`src/app.py:157-166`). -/
structure SurfaceResult where
  x : List ℚ
  y : List ℚ
  z : List (List (Option ℚ))
  points : List Point
  outliers_removed : ℕ
  total_before_filter : ℕ
deriving DecidableEq, Repr

/-- The core of the `get_data` pipeline (`src/app.py:118-166`), taking the
already-parsed points (parsing itself is `parse_xyz_file`; the filename
resolution and HTTP glue are out of core scope per §1 of the spec). -/
def get_data (filter_outliers : Bool) (points0 : List Point) : Except PipelineError SurfaceResult :=
  let points := surviving filter_outliers points0
  if points = [] then .error .emptyResult
  else
    .ok ⟨x_values points, y_values points, z_grid points, points,
      removedCount filter_outliers points0, points0.length⟩

/-- The distinct coordinate keys of a point list, in first-occurrence order
(`set(map.keys())` of `src/app.py:196-197` as a list). -/
def coordsList (ps : List Point) : List (ℚ × ℚ) := (ps.map coordOf).dedup

/-- The coordinate-key set of a point list, as a finite set. -/
def coordsFinset (ps : List Point) : Finset (ℚ × ℚ) := (ps.map coordOf).toFinset

/-- `common_coords = coords1 & coords2` (`src/app.py:198`), materialised as a
list (Python iterates the set in an unspecified order; this model iterates the
first file's coordinates in first-occurrence order — claim C10 shows the grid
does not depend on this order). -/
def commonCoords (ps1 ps2 : List Point) : List (ℚ × ℚ) :=
  (coordsList ps1).filter (fun c => decide (c ∈ ps2.map coordOf))

/-- The difference list `{'x': coord[0], 'y': coord[1], 'z': map1[coord] -
map2[coord]}` over the common coordinates (`src/app.py:204-207`); the `getD 0`
defaults never fire since every common coordinate is present in both maps. -/
def differences (ps1 ps2 : List Point) : List Point :=
  (commonCoords ps1 ps2).map
    (fun c => ⟨c.1, c.2, (point_map ps1 c).getD 0 - (point_map ps2 c).getD 0⟩)

/-- Python `min` of a nonempty list (`src/app.py:247`); `0` on `[]`, which the
pipeline never passes. -/
def listMin : List ℚ → ℚ
  | [] => 0
  | z :: zs => zs.foldl min z

/-- Python `max` of a nonempty list (`src/app.py:248`); `0` on `[]`, which the
pipeline never passes. -/
def listMax : List ℚ → ℚ
  | [] => 0
  | z :: zs => zs.foldl max z

/-- The `stats` object of `/compare` (`src/app.py:259-271`).  The code reports
`rms = rms_sq ** 0.5`; the square is stored to stay within `ℚ`, and
`CompareStats.rms` is its real square root. -/
structure CompareStats where
  min : ℚ
  max : ℚ
  mean : ℚ
  mean_abs : ℚ
  rms_sq : ℚ
  total_points : ℕ
  matched_points : ℕ
  file1_points : ℕ
  file2_points : ℕ
  outliers_removed : ℕ
  total_before_filter : ℕ
deriving DecidableEq, Repr

/-- The reported root-mean-square value `(sum(d**2 for d in diff_values) /
len(diff_values)) ** 0.5` (`src/app.py:252`). -/
noncomputable def CompareStats.rms (s : CompareStats) : ℝ := Real.sqrt s.rms_sq

/-- The successful JSON payload of `/compare` (`src/app.py:254-272`). -/
structure CompareResult where
  x : List ℚ
  y : List ℚ
  z : List (List (Option ℚ))
  points : List Point
  stats : CompareStats
deriving DecidableEq, Repr

/-- The core of the `compare_files` pipeline (`src/app.py:188-272`), taking
the two already-parsed point lists. -/
def compare_files (filter_outliers : Bool) (points1 points2 : List Point) :
    Except PipelineError CompareResult :=
  let common_coords := commonCoords points1 points2
  if common_coords = [] then .error .noOverlap
  else
    let diffs0 := differences points1 points2
    let diffs := surviving filter_outliers diffs0
    if diffs = [] then .error .emptyResult
    else
      let diff_values := diffs.map Point.z
      .ok ⟨x_values diffs, y_values diffs, z_grid diffs, diffs,
        ⟨listMin diff_values, listMax diff_values, listMean diff_values,
         listMean (diff_values.map (fun d => |d|)),
         (diff_values.map (fun d => d ^ 2)).sum / (diff_values.length : ℚ),
         diffs.length, common_coords.length, points1.length, points2.length,
         removedCount filter_outliers diffs0, diffs0.length⟩⟩

/-! ## Helper lemmas -/

theorem mem_sortedDistinct {xs : List ℚ} {a : ℚ} : a ∈ sortedDistinct xs ↔ a ∈ xs :=
  ((List.perm_insertionSort _ _).mem_iff).trans List.mem_dedup

theorem sortedDistinct_nodup (xs : List ℚ) : (sortedDistinct xs).Nodup :=
  ((List.perm_insertionSort _ _).nodup_iff).mpr (List.nodup_dedup xs)

theorem sortedDistinct_sorted (xs : List ℚ) : (sortedDistinct xs).Sorted (· ≤ ·) :=
  List.sorted_insertionSort _ _

theorem sortedDistinct_sorted_lt (xs : List ℚ) : (sortedDistinct xs).Sorted (· < ·) :=
  (sortedDistinct_sorted xs).lt_of_le (sortedDistinct_nodup xs)

theorem mem_x_values {ps : List Point} {a : ℚ} : a ∈ x_values ps ↔ ∃ p ∈ ps, p.x = a := by
  simp [x_values, mem_sortedDistinct]

theorem mem_y_values {ps : List Point} {a : ℚ} : a ∈ y_values ps ↔ ∃ p ∈ ps, p.y = a := by
  simp [y_values, mem_sortedDistinct]

theorem point_map_eq_none_iff {ps : List Point} {c : ℚ × ℚ} :
    point_map ps c = none ↔ ∀ p ∈ ps, coordOf p ≠ c := by
  simp only [point_map, Option.map_eq_none', List.find?_eq_none, List.mem_reverse,
    decide_eq_true_eq]

theorem point_map_eq_some {ps : List Point} {c : ℚ × ℚ} {z : ℚ}
    (h : point_map ps c = some z) : ∃ p ∈ ps, coordOf p = c ∧ p.z = z := by
  simp only [point_map, Option.map_eq_some'] at h
  obtain ⟨p, hfind, hz⟩ := h
  have hpred := List.find?_some hfind
  rw [decide_eq_true_eq] at hpred
  exact ⟨p, List.mem_reverse.mp (List.mem_of_find?_eq_some hfind), hpred, hz⟩

theorem point_map_isSome_iff {ps : List Point} {c : ℚ × ℚ} :
    (point_map ps c).isSome = true ↔ ∃ p ∈ ps, coordOf p = c := by
  constructor
  · intro h
    obtain ⟨z, hz⟩ := Option.isSome_iff_exists.mp h
    obtain ⟨p, hp, hc, _⟩ := point_map_eq_some hz
    exact ⟨p, hp, hc⟩
  · rintro ⟨p, hp, hc⟩
    rcases h : point_map ps c with _ | z
    · exact absurd hc (point_map_eq_none_iff.mp h p hp)
    · rfl

theorem z_grid_length (ps : List Point) : (z_grid ps).length = (y_values ps).length := by
  simp [z_grid]

theorem z_grid_row_length (ps : List Point) :
    ∀ row ∈ z_grid ps, row.length = (x_values ps).length := by
  intro row hrow
  simp only [z_grid, List.mem_map] at hrow
  obtain ⟨y, _, rfl⟩ := hrow
  simp

theorem z_grid_cell (ps : List Point) {i j : ℕ}
    (hi : i < (y_values ps).length) (hj : j < (x_values ps).length) :
    ((z_grid ps).getD i []).getD j none
      = point_map ps ((x_values ps).getD j 0, (y_values ps).getD i 0) := by
  have hrow : (z_grid ps).getD i []
      = (x_values ps).map (fun x => point_map ps (x, (y_values ps).getD i 0)) := by
    have hi2 : i < ((y_values ps).map
        (fun y => (x_values ps).map (fun x => point_map ps (x, y)))).length := by simpa using hi
    simp only [z_grid]
    rw [List.getD_eq_getElem _ _ hi2, List.getElem_map, List.getD_eq_getElem _ _ hi]
  rw [hrow]
  have hj2 : j < ((x_values ps).map
      (fun x => point_map ps (x, (y_values ps).getD i 0))).length := by simpa using hj
  rw [List.getD_eq_getElem _ _ hj2, List.getElem_map, List.getD_eq_getElem _ _ hj]

theorem filterPoints_sublist (ps : List Point) : (filterPoints ps).Sublist ps :=
  List.filter_sublist ps

theorem mem_filterPoints {ps : List Point} {p : Point} :
    p ∈ filterPoints ps ↔ p ∈ ps ∧
      (p.z - listMean (ps.map Point.z)) ^ 2 ≤ listVariance (ps.map Point.z) := by
  simp [filterPoints, List.mem_filter]

theorem listVariance_nonneg (zs : List ℚ) : 0 ≤ listVariance zs := by
  apply div_nonneg _ (Nat.cast_nonneg _)
  apply List.sum_nonneg
  intro x hx
  simp only [List.mem_map] at hx
  obtain ⟨z, _, rfl⟩ := hx
  positivity

/-- The exact reformulation of the band test of `src/app.py:130-135`:
`mean - √variance ≤ z ≤ mean + √variance` is equivalent to the rational
comparison `(z - mean)² ≤ variance` used by `filterPoints`. -/
theorem sq_le_iff_band (m v z : ℚ) (hv : 0 ≤ v) :
    (z - m) ^ 2 ≤ v ↔
      ((m : ℝ) - Real.sqrt v ≤ (z : ℝ) ∧ (z : ℝ) ≤ (m : ℝ) + Real.sqrt v) := by
  have habs : |(z : ℝ) - (m : ℝ)| ≤ Real.sqrt v ↔ ((z : ℝ) - m) ^ 2 ≤ v := by
    rw [show ((z : ℝ) - m) ^ 2 = |(z : ℝ) - m| ^ 2 from (sq_abs _).symm]
    exact Real.le_sqrt (abs_nonneg _) (by exact_mod_cast hv)
  constructor
  · intro h
    have h2 : ((z : ℝ) - m) ^ 2 ≤ (v : ℝ) := by exact_mod_cast h
    have := habs.mpr h2
    rw [abs_le] at this
    constructor <;> linarith [this.1, this.2]
  · intro ⟨h1, h2⟩
    have : |(z : ℝ) - (m : ℝ)| ≤ Real.sqrt v := by rw [abs_le]; constructor <;> linarith
    exact_mod_cast habs.mp this

/-- The mathematical core of claim C9: some value always lies inside the
1-σ band, because otherwise the summed squared deviations would exceed
`N·σ²`, which equals their own sum. -/
theorem exists_mem_band {zs : List ℚ} (h : zs ≠ []) :
    ∃ z ∈ zs, (z - listMean zs) ^ 2 ≤ listVariance zs := by
  by_contra hcon
  push_neg at hcon
  have hlen : 0 < zs.length := List.length_pos.mpr h
  have hlt : ((zs.map (fun _ => listVariance zs)).sum)
      < ((zs.map (fun z => (z - listMean zs) ^ 2)).sum) := by
    apply List.sum_lt_sum
    · intro z hz; exact (hcon z hz).le
    · obtain ⟨z, hz⟩ := List.exists_mem_of_ne_nil zs h
      exact ⟨z, hz, hcon z hz⟩
  have hconst : ((zs.map (fun _ => listVariance zs)).sum)
      = (zs.length : ℚ) * listVariance zs := by
    rw [show (fun _ : ℚ => listVariance zs) = Function.const ℚ (listVariance zs) from rfl,
      List.map_const, List.sum_replicate, nsmul_eq_mul]
  have hvar : (zs.length : ℚ) * listVariance zs
      = ((zs.map (fun z => (z - listMean zs) ^ 2)).sum) := by
    rw [listVariance, mul_div_cancel₀]
    exact Nat.cast_ne_zero.mpr hlen.ne'
  rw [hconst, hvar] at hlt
  exact lt_irrefl _ hlt

theorem filterPoints_ne_nil {ps : List Point} (h : ps ≠ []) : filterPoints ps ≠ [] := by
  have hne : ps.map Point.z ≠ [] := by simpa using h
  obtain ⟨z, hz, hband⟩ := exists_mem_band hne
  simp only [List.mem_map] at hz
  obtain ⟨p, hp, rfl⟩ := hz
  intro hnil
  exact (List.ne_nil_of_mem (mem_filterPoints.mpr ⟨hp, hband⟩)) hnil

theorem surviving_ne_nil {ps : List Point} (fo : Bool) (h : ps ≠ []) :
    surviving fo ps ≠ [] := by
  unfold surviving
  split
  · exact filterPoints_ne_nil h
  · exact h

/-- `find?` returns the element at position `n` when every earlier element
fails the predicate and the one at `n` passes it. -/
theorem find?_eq_of_prefix_false {α : Type} (p : α → Bool) (d : α) :
    ∀ (l : List α) (n : ℕ), n < l.length →
      (∀ m, m < n → p (l.getD m d) = false) → p (l.getD n d) = true →
      l.find? p = some (l.getD n d)
  | [], n, hn => by simp at hn
  | a :: l, 0, _ => by
    intro _ hp
    rw [List.getD_cons_zero] at hp ⊢
    exact List.find?_cons_of_pos l hp
  | a :: l, n + 1, hn => by
    intro hpre hp
    have ha : p a = false := by
      have := hpre 0 (Nat.succ_pos n)
      rwa [List.getD_cons_zero] at this
    rw [List.getD_cons_succ] at hp ⊢
    rw [List.find?_cons_of_neg l (by simp [ha])]
    exact find?_eq_of_prefix_false p d l n (by simpa using hn)
      (fun m hm => by
        have := hpre (m + 1) (by omega)
        rwa [List.getD_cons_succ] at this) hp

/-- `point_map` returns the `z` of the point at position `j` whenever no
later point shares its coordinate (the precise form of last-write-wins). -/
theorem point_map_getD_last {ps : List Point} {j : ℕ} (hj : j < ps.length)
    (hlast : ∀ k, j < k → k < ps.length → coordOf (ps.getD k pd) ≠ coordOf (ps.getD j pd)) :
    point_map ps (coordOf (ps.getD j pd)) = some (ps.getD j pd).z := by
  have hlen : ps.reverse.length = ps.length := List.length_reverse ps
  have hrevD : ∀ m, m < ps.length →
      ps.reverse.getD m pd = ps.getD (ps.length - 1 - m) pd := by
    intro m hm
    have hm2 : m < ps.reverse.length := by omega
    rw [List.getD_eq_getElem _ _ hm2, List.getElem_reverse,
      List.getD_eq_getElem _ _ (by omega)]
  have hn : ps.length - 1 - j < ps.reverse.length := by omega
  have hfind : ps.reverse.find? (fun p => decide (coordOf p = coordOf (ps.getD j pd)))
      = some (ps.reverse.getD (ps.length - 1 - j) pd) := by
    apply find?_eq_of_prefix_false _ pd _ _ hn
    · intro m hm
      rw [hrevD m (by omega)]
      apply decide_eq_false
      apply hlast <;> omega
    · rw [hrevD _ (by omega)]
      have heq : ps.length - 1 - (ps.length - 1 - j) = j := by omega
      rw [heq]
      exact decide_eq_true rfl
  have hself : ps.reverse.getD (ps.length - 1 - j) pd = ps.getD j pd := by
    rw [hrevD _ (by omega)]
    congr 1
    omega
  rw [point_map, hfind, hself, Option.map_some']

/-- Under distinct coordinates, `point_map` is exactly membership. -/
theorem point_map_eq_some_iff_of_nodup {ps : List Point}
    (hnd : (ps.map coordOf).Nodup) {c : ℚ × ℚ} {z : ℚ} :
    point_map ps c = some z ↔ ∃ p ∈ ps, coordOf p = c ∧ p.z = z := by
  constructor
  · exact point_map_eq_some
  · rintro ⟨p, hp, hcoord, hz⟩
    rcases h : point_map ps c with _ | z'
    · exact absurd hcoord (point_map_eq_none_iff.mp h p hp)
    · obtain ⟨p', hp', hcoord', hz'⟩ := point_map_eq_some h
      have : p = p' := List.inj_on_of_nodup_map hnd hp hp' (hcoord.trans hcoord'.symm)
      rw [← hz', ← this, hz]

/-- `point_map` ignores the order of a duplicate-free point list. -/
theorem point_map_perm {l1 l2 : List Point} (hp : l1.Perm l2)
    (hnd : (l1.map coordOf).Nodup) : ∀ c, point_map l1 c = point_map l2 c := by
  have hnd2 : (l2.map coordOf).Nodup := ((hp.map coordOf).nodup_iff).mp hnd
  intro c
  rcases h1 : point_map l1 c with _ | z
  · symm
    rw [point_map_eq_none_iff] at h1 ⊢
    intro p hp2
    exact h1 p (hp.mem_iff.mpr hp2)
  · symm
    rw [point_map_eq_some_iff_of_nodup hnd2]
    obtain ⟨p, hmem, hcoord, hz⟩ := point_map_eq_some h1
    exact ⟨p, hp.subset hmem, hcoord, hz⟩

/-- If two point lists induce the same coordinate map, they have the same
axes and the same grid. -/
theorem grid_determined_by_map {ps1 ps2 : List Point}
    (h : ∀ c, point_map ps1 c = point_map ps2 c) :
    x_values ps1 = x_values ps2 ∧ y_values ps1 = y_values ps2
      ∧ z_grid ps1 = z_grid ps2 := by
  have hmemx : ∀ ps : List Point, ∀ a : ℚ,
      (a ∈ x_values ps ↔ ∃ b, (point_map ps (a, b)).isSome = true) := by
    intro ps a
    rw [mem_x_values]
    constructor
    · rintro ⟨p, hp, rfl⟩
      exact ⟨p.y, point_map_isSome_iff.mpr ⟨p, hp, rfl⟩⟩
    · rintro ⟨b, hb⟩
      obtain ⟨p, hp, hc⟩ := point_map_isSome_iff.mp hb
      exact ⟨p, hp, congrArg Prod.fst hc⟩
  have hmemy : ∀ ps : List Point, ∀ b : ℚ,
      (b ∈ y_values ps ↔ ∃ a, (point_map ps (a, b)).isSome = true) := by
    intro ps b
    rw [mem_y_values]
    constructor
    · rintro ⟨p, hp, rfl⟩
      exact ⟨p.x, point_map_isSome_iff.mpr ⟨p, hp, rfl⟩⟩
    · rintro ⟨a, ha⟩
      obtain ⟨p, hp, hc⟩ := point_map_isSome_iff.mp ha
      exact ⟨p, hp, congrArg Prod.snd hc⟩
  have hx : x_values ps1 = x_values ps2 := by
    apply List.eq_of_perm_of_sorted _ (sortedDistinct_sorted _) (sortedDistinct_sorted _)
    rw [List.perm_ext_iff_of_nodup (sortedDistinct_nodup _) (sortedDistinct_nodup _)]
    intro a
    show a ∈ x_values ps1 ↔ a ∈ x_values ps2
    rw [hmemx ps1 a, hmemx ps2 a]
    simp only [h]
  have hy : y_values ps1 = y_values ps2 := by
    apply List.eq_of_perm_of_sorted _ (sortedDistinct_sorted _) (sortedDistinct_sorted _)
    rw [List.perm_ext_iff_of_nodup (sortedDistinct_nodup _) (sortedDistinct_nodup _)]
    intro b
    show b ∈ y_values ps1 ↔ b ∈ y_values ps2
    rw [hmemy ps1 b, hmemy ps2 b]
    simp only [h]
  refine ⟨hx, hy, ?_⟩
  rw [z_grid, z_grid, hx, hy]
  have hfun : point_map ps1 = point_map ps2 := funext h
  rw [hfun]

/-! ## Comparison-side helper lemmas -/

theorem mem_commonCoords {ps1 ps2 : List Point} {c : ℚ × ℚ} :
    c ∈ commonCoords ps1 ps2 ↔ c ∈ ps1.map coordOf ∧ c ∈ ps2.map coordOf := by
  simp [commonCoords, coordsList, List.mem_filter, List.mem_dedup]

theorem mem_commonCoords_finset {ps1 ps2 : List Point} {c : ℚ × ℚ} :
    c ∈ commonCoords ps1 ps2 ↔ c ∈ coordsFinset ps1 ∩ coordsFinset ps2 := by
  rw [mem_commonCoords, Finset.mem_inter, coordsFinset, coordsFinset,
    List.mem_toFinset, List.mem_toFinset]

theorem commonCoords_nodup (ps1 ps2 : List Point) : (commonCoords ps1 ps2).Nodup :=
  (List.nodup_dedup _).filter _

theorem commonCoords_eq_nil_iff {ps1 ps2 : List Point} :
    commonCoords ps1 ps2 = [] ↔ coordsFinset ps1 ∩ coordsFinset ps2 = ∅ := by
  constructor
  · intro h
    apply Finset.eq_empty_iff_forall_not_mem.mpr
    intro c hc
    have hmem := mem_commonCoords_finset.mpr hc
    rw [h] at hmem
    exact List.not_mem_nil c hmem
  · intro h
    rcases hne : commonCoords ps1 ps2 with _ | ⟨c, l⟩
    · rfl
    · exfalso
      have hc : c ∈ commonCoords ps1 ps2 := by
        rw [hne]
        exact List.mem_cons_self c l
      have hmem := mem_commonCoords_finset.mp hc
      rw [h] at hmem
      exact Finset.not_mem_empty c hmem

theorem commonCoords_length (ps1 ps2 : List Point) :
    (commonCoords ps1 ps2).length = (coordsFinset ps1 ∩ coordsFinset ps2).card := by
  have hnd := commonCoords_nodup ps1 ps2
  rw [← List.toFinset_card_of_nodup hnd]
  congr 1
  ext c
  rw [List.mem_toFinset, mem_commonCoords_finset]

theorem differences_map_coordOf (ps1 ps2 : List Point) :
    (differences ps1 ps2).map coordOf = commonCoords ps1 ps2 := by
  rw [differences, List.map_map]
  have : (coordOf ∘ fun c : ℚ × ℚ =>
      (⟨c.1, c.2, (point_map ps1 c).getD 0 - (point_map ps2 c).getD 0⟩ : Point)) = id := by
    funext c
    simp [coordOf]
  rw [this, List.map_id]

theorem differences_length (ps1 ps2 : List Point) :
    (differences ps1 ps2).length = (commonCoords ps1 ps2).length := by
  rw [differences, List.length_map]

/-- Every difference entry carries a coordinate common to both files and the
value `z1 - z2` of the two maps there. -/
theorem mem_differences {ps1 ps2 : List Point} {d : Point}
    (hd : d ∈ differences ps1 ps2) :
    coordOf d ∈ commonCoords ps1 ps2
      ∧ ∃ z1 z2, point_map ps1 (coordOf d) = some z1
          ∧ point_map ps2 (coordOf d) = some z2 ∧ d.z = z1 - z2 := by
  rw [differences, List.mem_map] at hd
  obtain ⟨c, hc, rfl⟩ := hd
  have hcoord : coordOf (⟨c.1, c.2,
      (point_map ps1 c).getD 0 - (point_map ps2 c).getD 0⟩ : Point) = c := by
    simp [coordOf]
  rw [hcoord]
  refine ⟨hc, ?_⟩
  have hmem := mem_commonCoords.mp hc
  have h1 : (point_map ps1 c).isSome = true := by
    rw [point_map_isSome_iff]
    obtain ⟨p, hp, hc1⟩ := List.mem_map.mp hmem.1
    exact ⟨p, hp, hc1⟩
  have h2 : (point_map ps2 c).isSome = true := by
    rw [point_map_isSome_iff]
    obtain ⟨p, hp, hc2⟩ := List.mem_map.mp hmem.2
    exact ⟨p, hp, hc2⟩
  obtain ⟨z1, hz1⟩ := Option.isSome_iff_exists.mp h1
  obtain ⟨z2, hz2⟩ := Option.isSome_iff_exists.mp h2
  exact ⟨z1, z2, hz1, hz2, by rw [hz1, hz2]; rfl⟩

/-- Each common coordinate yields a difference entry. -/
theorem commonCoords_mem_differences {ps1 ps2 : List Point} {c : ℚ × ℚ}
    (hc : c ∈ commonCoords ps1 ps2) :
    ∃ d ∈ differences ps1 ps2, coordOf d = c := by
  refine ⟨⟨c.1, c.2, (point_map ps1 c).getD 0 - (point_map ps2 c).getD 0⟩, ?_, by simp [coordOf]⟩
  rw [differences, List.mem_map]
  exact ⟨c, hc, rfl⟩

/-! ## `min`/`max` over nonempty lists -/

theorem foldl_min_le_init (l : List ℚ) : ∀ a : ℚ, l.foldl min a ≤ a := by
  induction l with
  | nil => intro a; exact le_refl a
  | cons b l ih =>
    intro a
    calc (b :: l).foldl min a = l.foldl min (min a b) := rfl
    _ ≤ min a b := ih (min a b)
    _ ≤ a := min_le_left a b

theorem foldl_min_le_mem (l : List ℚ) : ∀ (a : ℚ), ∀ z ∈ l, l.foldl min a ≤ z := by
  induction l with
  | nil => intro a z hz; simp at hz
  | cons b l ih =>
    intro a z hz
    rcases List.mem_cons.mp hz with rfl | hz
    · calc (z :: l).foldl min a = l.foldl min (min a z) := rfl
      _ ≤ min a z := foldl_min_le_init l (min a z)
      _ ≤ z := min_le_right a z
    · exact ih (min a b) z hz

theorem foldl_min_mem (l : List ℚ) : ∀ a : ℚ, l.foldl min a = a ∨ l.foldl min a ∈ l := by
  induction l with
  | nil => intro a; exact Or.inl rfl
  | cons b l ih =>
    intro a
    have : (b :: l).foldl min a = l.foldl min (min a b) := rfl
    rw [this]
    rcases ih (min a b) with h | h
    · rcases min_choice a b with hab | hab
      · exact Or.inl (h.trans hab)
      · exact Or.inr (List.mem_cons.mpr (Or.inl (h.trans hab)))
    · exact Or.inr (List.mem_cons.mpr (Or.inr h))

theorem listMin_mem {zs : List ℚ} (h : zs ≠ []) : listMin zs ∈ zs := by
  match zs with
  | [] => exact absurd rfl h
  | z :: zs =>
    rw [listMin]
    rcases foldl_min_mem zs z with h2 | h2
    · exact List.mem_cons.mpr (Or.inl h2)
    · exact List.mem_cons.mpr (Or.inr h2)

theorem listMin_le {zs : List ℚ} (z : ℚ) (hz : z ∈ zs) : listMin zs ≤ z := by
  match zs with
  | [] => simp at hz
  | w :: zs =>
    rw [listMin]
    rcases List.mem_cons.mp hz with rfl | hz2
    · exact foldl_min_le_init zs z
    · exact foldl_min_le_mem zs w z hz2

theorem foldl_max_ge_init (l : List ℚ) : ∀ a : ℚ, a ≤ l.foldl max a := by
  induction l with
  | nil => intro a; exact le_refl a
  | cons b l ih =>
    intro a
    calc a ≤ max a b := le_max_left a b
    _ ≤ l.foldl max (max a b) := ih (max a b)
    _ = (b :: l).foldl max a := rfl

theorem foldl_max_ge_mem (l : List ℚ) : ∀ (a : ℚ), ∀ z ∈ l, z ≤ l.foldl max a := by
  induction l with
  | nil => intro a z hz; simp at hz
  | cons b l ih =>
    intro a z hz
    rcases List.mem_cons.mp hz with rfl | hz
    · calc z ≤ max a z := le_max_right a z
      _ ≤ l.foldl max (max a z) := foldl_max_ge_init l (max a z)
      _ = (z :: l).foldl max a := rfl
    · exact ih (max a b) z hz

theorem foldl_max_mem (l : List ℚ) : ∀ a : ℚ, l.foldl max a = a ∨ l.foldl max a ∈ l := by
  induction l with
  | nil => intro a; exact Or.inl rfl
  | cons b l ih =>
    intro a
    have : (b :: l).foldl max a = l.foldl max (max a b) := rfl
    rw [this]
    rcases ih (max a b) with h | h
    · rcases max_choice a b with hab | hab
      · exact Or.inl (h.trans hab)
      · exact Or.inr (List.mem_cons.mpr (Or.inl (h.trans hab)))
    · exact Or.inr (List.mem_cons.mpr (Or.inr h))

theorem listMax_mem {zs : List ℚ} (h : zs ≠ []) : listMax zs ∈ zs := by
  match zs with
  | [] => exact absurd rfl h
  | z :: zs =>
    rw [listMax]
    rcases foldl_max_mem zs z with h2 | h2
    · exact List.mem_cons.mpr (Or.inl h2)
    · exact List.mem_cons.mpr (Or.inr h2)

theorem listMax_ge {zs : List ℚ} (z : ℚ) (hz : z ∈ zs) : z ≤ listMax zs := by
  match zs with
  | [] => simp at hz
  | w :: zs =>
    rw [listMax]
    rcases List.mem_cons.mp hz with rfl | hz2
    · exact foldl_max_ge_init zs z
    · exact foldl_max_ge_mem zs w z hz2

/-! ## Pipeline inversion lemmas -/

theorem surviving_of_le_one {ps : List Point} (fo : Bool) (h : ps.length ≤ 1) :
    surviving fo ps = ps := by
  rw [surviving, if_neg]
  rintro ⟨-, hlen⟩
  omega

theorem surviving_false (ps : List Point) : surviving false ps = ps := by
  rw [surviving, if_neg]
  rintro ⟨h, -⟩
  exact Bool.false_ne_true h

theorem removedCount_of_le_one {ps : List Point} (fo : Bool) (h : ps.length ≤ 1) :
    removedCount fo ps = 0 := by
  rw [removedCount, surviving_of_le_one fo h, Nat.sub_self]

theorem surviving_length_le (fo : Bool) (ps : List Point) :
    (surviving fo ps).length ≤ ps.length := by
  rw [surviving]
  split
  · exact (filterPoints_sublist ps).length_le
  · exact le_refl _

theorem get_data_ok_iff {fo : Bool} {ps : List Point} {r : SurfaceResult} :
    get_data fo ps = .ok r ↔ surviving fo ps ≠ []
      ∧ r = ⟨x_values (surviving fo ps), y_values (surviving fo ps),
          z_grid (surviving fo ps), surviving fo ps, removedCount fo ps, ps.length⟩ := by
  simp only [get_data]
  split_ifs with h
  · constructor
    · intro he
      exact he.elim
    · rintro ⟨hne, -⟩
      exact absurd h hne
  · constructor
    · intro he
      exact ⟨h, (Except.ok.inj he).symm⟩
    · rintro ⟨-, rfl⟩
      rfl

theorem get_data_error_iff {fo : Bool} {ps : List Point} {e : PipelineError} :
    get_data fo ps = .error e ↔ surviving fo ps = [] ∧ e = .emptyResult := by
  simp only [get_data]
  split_ifs with h
  · constructor
    · intro he
      exact ⟨h, (Except.error.inj he).symm⟩
    · rintro ⟨-, rfl⟩
      rfl
  · constructor
    · intro he
      exact he.elim
    · rintro ⟨hnil, -⟩
      exact absurd hnil h

theorem compare_files_error_iff {fo : Bool} {ps1 ps2 : List Point} {e : PipelineError} :
    compare_files fo ps1 ps2 = .error e ↔
      (commonCoords ps1 ps2 = [] ∧ e = .noOverlap)
      ∨ (commonCoords ps1 ps2 ≠ []
          ∧ surviving fo (differences ps1 ps2) = [] ∧ e = .emptyResult) := by
  simp only [compare_files]
  split_ifs with h1 h2
  · constructor
    · intro he
      exact Or.inl ⟨h1, (Except.error.inj he).symm⟩
    · rintro (⟨-, rfl⟩ | ⟨hne, -, -⟩)
      · rfl
      · exact absurd h1 hne
  · constructor
    · intro he
      exact Or.inr ⟨h1, h2, (Except.error.inj he).symm⟩
    · rintro (⟨hnil, -⟩ | ⟨-, -, rfl⟩)
      · exact absurd hnil h1
      · rfl
  · constructor
    · intro he
      exact he.elim
    · rintro (⟨hnil, -⟩ | ⟨-, hnil, -⟩)
      · exact absurd hnil h1
      · exact absurd hnil h2

theorem compare_files_ok_iff {fo : Bool} {ps1 ps2 : List Point} {r : CompareResult} :
    compare_files fo ps1 ps2 = .ok r ↔
      commonCoords ps1 ps2 ≠ []
      ∧ surviving fo (differences ps1 ps2) ≠ []
      ∧ r = (let diffs := surviving fo (differences ps1 ps2)
             let dvals := diffs.map Point.z
             ⟨x_values diffs, y_values diffs, z_grid diffs, diffs,
              ⟨listMin dvals, listMax dvals, listMean dvals,
               listMean (dvals.map (fun d => |d|)),
               (dvals.map (fun d => d ^ 2)).sum / (dvals.length : ℚ),
               diffs.length, (commonCoords ps1 ps2).length, ps1.length, ps2.length,
               removedCount fo (differences ps1 ps2), (differences ps1 ps2).length⟩⟩) := by
  simp only [compare_files]
  split_ifs with h1 h2
  · constructor
    · intro he
      exact he.elim
    · rintro ⟨hne, -, -⟩
      exact absurd h1 hne
  · constructor
    · intro he
      exact he.elim
    · rintro ⟨-, hne, -⟩
      exact absurd h2 hne
  · constructor
    · intro he
      exact ⟨h1, h2, (Except.ok.inj he).symm⟩
    · rintro ⟨-, -, rfl⟩
      rfl

theorem parseLine_eq_none {toFloat : List Char → Option ℚ} {line : String}
    (h : (splitWs (trimChars line.toList)).length < 3
      ∨ ∃ i, i < 3 ∧ toFloat ((splitWs (trimChars line.toList)).getD i []) = none) :
    parseLine toFloat line = none := by
  simp only [parseLine]
  split_ifs with h1 h2
  · rfl
  · rcases h with hlen | ⟨i, hi, hnone⟩
    · exact absurd h2 (by omega)
    · split
      · rename_i x y z e0 e1 e2
        exfalso
        interval_cases i
        · rw [hnone] at e0; exact Option.noConfusion e0
        · rw [hnone] at e1; exact Option.noConfusion e1
        · rw [hnone] at e2; exact Option.noConfusion e2
      · rfl
  · rfl

theorem parseLine_isSome_iff {toFloat : List Char → Option ℚ} {line : String} :
    (∃ p, parseLine toFloat line = some p) ↔
      (3 ≤ (splitWs (trimChars line.toList)).length
        ∧ ∀ i, i < 3 → (toFloat ((splitWs (trimChars line.toList)).getD i [])).isSome = true) := by
  simp only [parseLine]
  split_ifs with h1 h2
  · constructor
    · rintro ⟨p, hp⟩
      exact hp.elim
    · rintro ⟨hlen, -⟩
      rw [h1] at hlen
      exact absurd hlen (by decide)
  · constructor
    · rintro ⟨p, hp⟩
      refine ⟨h2, ?_⟩
      intro i hi
      rcases e0 : toFloat ((splitWs (trimChars line.toList)).getD 0 []) with _ | x
      · rw [e0] at hp; simp at hp
      · rcases e1 : toFloat ((splitWs (trimChars line.toList)).getD 1 []) with _ | y
        · rw [e0, e1] at hp; simp at hp
        · rcases e2 : toFloat ((splitWs (trimChars line.toList)).getD 2 []) with _ | z
          · rw [e0, e1, e2] at hp; simp at hp
          · interval_cases i
            · rw [e0]; rfl
            · rw [e1]; rfl
            · rw [e2]; rfl
    · rintro ⟨hlen, hsome⟩
      obtain ⟨x, e0⟩ := Option.isSome_iff_exists.mp (hsome 0 (by omega))
      obtain ⟨y, e1⟩ := Option.isSome_iff_exists.mp (hsome 1 (by omega))
      obtain ⟨z, e2⟩ := Option.isSome_iff_exists.mp (hsome 2 (by omega))
      rw [e0, e1, e2]
      exact ⟨⟨x, y, z⟩, rfl⟩
  · constructor
    · rintro ⟨p, hp⟩
      exact hp.elim
    · rintro ⟨hlen, -⟩
      exact absurd hlen h2

/-! ## Claim theorems -/

section
attribute [local semireducible] Rat.add Rat.sub Rat.mul Rat.inv

/-- **C1**: for every PointSet, `x_values`/`y_values` are the ascending sorted
sequences of distinct x/y coordinates, the cell matrix has one row per y value
each of length `len(x_values)`, and cell `[i][j]` is the coordinate-map value
at `(x_values[j], y_values[i])` when that coordinate occurs among the points
and `none` otherwise (never a defaulted zero). -/
theorem grid_invariants (ps : List Point) (i j : ℕ)
    (hi : i < (y_values ps).length) (hj : j < (x_values ps).length) :
    (x_values ps).Sorted (· < ·)
    ∧ (y_values ps).Sorted (· < ·)
    ∧ (∀ a, a ∈ x_values ps ↔ ∃ p ∈ ps, p.x = a)
    ∧ (∀ b, b ∈ y_values ps ↔ ∃ p ∈ ps, p.y = b)
    ∧ (z_grid ps).length = (y_values ps).length
    ∧ (∀ row ∈ z_grid ps, row.length = (x_values ps).length)
    ∧ ((z_grid ps).getD i []).getD j none
        = point_map ps ((x_values ps).getD j 0, (y_values ps).getD i 0)
    ∧ (∀ x y, point_map ps (x, y) = none ↔ ∀ p ∈ ps, ¬(p.x = x ∧ p.y = y))
    ∧ (∀ x y zv, point_map ps (x, y) = some zv → (⟨x, y, zv⟩ : Point) ∈ ps) := by
  refine ⟨sortedDistinct_sorted_lt _, sortedDistinct_sorted_lt _,
    fun a => mem_x_values, fun b => mem_y_values,
    z_grid_length ps, z_grid_row_length ps, z_grid_cell ps hi hj, ?_, ?_⟩
  · intro x y
    rw [point_map_eq_none_iff]
    constructor
    · intro h p hp hxy
      exact h p hp (by simp [coordOf, hxy.1, hxy.2])
    · intro h p hp hc
      simp only [coordOf, Prod.mk.injEq] at hc
      exact h p hp hc
  · intro x y zv h
    obtain ⟨p, hp, hc, hz⟩ := point_map_eq_some h
    obtain ⟨px, py, pz⟩ := p
    simp only [coordOf, Prod.mk.injEq] at hc
    simp only at hz
    rw [← hc.1, ← hc.2, ← hz]
    exact hp

/-- Witness for C1 at the concrete two-point scatter `[(1,0,5), (0,2,7)]`,
rows `y = 0, 2`, columns `x = 0, 1`. -/
theorem grid_invariants_witness :
    1 < (y_values [⟨1, 0, 5⟩, ⟨0, 2, 7⟩]).length
    ∧ 0 < (x_values [⟨1, 0, 5⟩, ⟨0, 2, 7⟩]).length
    ∧ ((z_grid [⟨1, 0, 5⟩, ⟨0, 2, 7⟩]).getD 1 []).getD 0 none
        = point_map [⟨1, 0, 5⟩, ⟨0, 2, 7⟩]
            ((x_values [⟨1, 0, 5⟩, ⟨0, 2, 7⟩]).getD 0 0,
             (y_values [⟨1, 0, 5⟩, ⟨0, 2, 7⟩]).getD 1 0) :=
  ⟨by decide, by decide,
    (grid_invariants [⟨1, 0, 5⟩, ⟨0, 2, 7⟩] 1 0 (by decide) (by decide)).2.2.2.2.2.2.1⟩

/-- **C3**: the parser is total; a line yields a point exactly when it has at
least 3 whitespace tokens whose first three all convert; the output keeps the
input line order (it distributes over concatenation) and its size is at most
the line count; when every line is short or has a bad token, the result is
empty. -/
theorem parser_robustness (toFloat : List Char → Option ℚ) (lines : List String)
    (hbad : ∀ line ∈ lines, (splitWs (trimChars line.toList)).length < 3
        ∨ ∃ i, i < 3 ∧ toFloat ((splitWs (trimChars line.toList)).getD i []) = none) :
    parse_xyz_file toFloat lines = []
    ∧ (∀ ls : List String, (parse_xyz_file toFloat ls).length ≤ ls.length)
    ∧ (∀ l1 l2 : List String, parse_xyz_file toFloat (l1 ++ l2)
        = parse_xyz_file toFloat l1 ++ parse_xyz_file toFloat l2)
    ∧ (∀ line : String, (∃ p, parseLine toFloat line = some p) ↔
        (3 ≤ (splitWs (trimChars line.toList)).length
          ∧ ∀ i, i < 3 →
            (toFloat ((splitWs (trimChars line.toList)).getD i [])).isSome = true)) := by
  refine ⟨?_, ?_, ?_, fun line => parseLine_isSome_iff⟩
  · rw [parse_xyz_file, List.filterMap_eq_nil_iff]
    intro line hline
    exact parseLine_eq_none (hbad line hline)
  · intro ls
    exact List.length_filterMap_le _ ls
  · intro l1 l2
    exact List.filterMap_append l1 l2 _

/-- Witness for C3: a file whose lines are blank, short, or non-numeric
parses to the empty PointSet under the concrete conversion `parseQ`. -/
theorem parser_robustness_witness :
    parse_xyz_file parseQ ["  ", "4 5", "x y z", "1 2"] = [] :=
  (parser_robustness parseQ ["  ", "4 5", "x y z", "1 2"] (by decide)).1

/-- **C4 counterexample**: the claim fails as stated: in
`[(0,0,1), (0,0,2), (0,0,3)]` the points at positions `0 < 1` share `(x, y)`
and have different `z`, yet the coordinate map holds `3` (the z of position
2), not the `2` of position 1. -/
theorem last_write_wins_counterexample :
    (0 : ℕ) < 1 ∧ (1 : ℕ) < ([⟨0,0,1⟩, ⟨0,0,2⟩, ⟨0,0,3⟩] : List Point).length
    ∧ coordOf (([⟨0,0,1⟩, ⟨0,0,2⟩, ⟨0,0,3⟩] : List Point).getD 0 pd)
        = coordOf (([⟨0,0,1⟩, ⟨0,0,2⟩, ⟨0,0,3⟩] : List Point).getD 1 pd)
    ∧ (([⟨0,0,1⟩, ⟨0,0,2⟩, ⟨0,0,3⟩] : List Point).getD 0 pd).z
        ≠ (([⟨0,0,1⟩, ⟨0,0,2⟩, ⟨0,0,3⟩] : List Point).getD 1 pd).z
    ∧ point_map [⟨0,0,1⟩, ⟨0,0,2⟩, ⟨0,0,3⟩]
        (coordOf (([⟨0,0,1⟩, ⟨0,0,2⟩, ⟨0,0,3⟩] : List Point).getD 1 pd))
      ≠ some ((([⟨0,0,1⟩, ⟨0,0,2⟩, ⟨0,0,3⟩] : List Point).getD 1 pd).z) := by
  decide

/-- **C4 (amended)**: for two points with identical `(x, y)` and different `z`
at positions `i < j`, *where `j` is the last position holding that
coordinate*, the coordinate map — and hence the grid cell at that coordinate —
holds the `z` of the point at position `j` (last-write-wins, no error). -/
theorem last_write_wins (ps : List Point) (i j : ℕ) (_hij : i < j) (hj : j < ps.length)
    (_hdup : coordOf (ps.getD i pd) = coordOf (ps.getD j pd))
    (_hzne : (ps.getD i pd).z ≠ (ps.getD j pd).z)
    (hlast : ∀ k, j < k → k < ps.length → coordOf (ps.getD k pd) ≠ coordOf (ps.getD j pd)) :
    point_map ps (coordOf (ps.getD j pd)) = some ((ps.getD j pd).z)
    ∧ (∀ a b, a < (y_values ps).length → b < (x_values ps).length →
        ((x_values ps).getD b 0, (y_values ps).getD a 0) = coordOf (ps.getD j pd) →
        ((z_grid ps).getD a []).getD b none = some ((ps.getD j pd).z)) := by
  have hmap := point_map_getD_last hj hlast
  refine ⟨hmap, ?_⟩
  intro a b ha hb hcell
  rw [z_grid_cell ps ha hb, hcell, hmap]

/-- Witness for the amended C4: in `[(0,0,1), (0,0,2)]` position 1 is the last
occurrence of `(0,0)` and the map and grid cell hold its `z = 2`. -/
theorem last_write_wins_witness :
    point_map [⟨0,0,1⟩, ⟨0,0,2⟩] (coordOf (([⟨0,0,1⟩, ⟨0,0,2⟩] : List Point).getD 1 pd))
      = some ((([⟨0,0,1⟩, ⟨0,0,2⟩] : List Point).getD 1 pd).z)
    ∧ ((z_grid [⟨0,0,1⟩, ⟨0,0,2⟩]).getD 0 []).getD 0 none
      = some ((([⟨0,0,1⟩, ⟨0,0,2⟩] : List Point).getD 1 pd).z) := by
  have h := last_write_wins [⟨0,0,1⟩, ⟨0,0,2⟩] 0 1 (by decide) (by decide) (by decide)
    (by decide) (fun k h1 h2 => by simp only [List.length_cons, List.length_nil] at h2; omega)
  exact ⟨h.1, h.2 0 0 (by decide) (by decide) (by decide)⟩

/-- **C2**: the filter keeps exactly the points whose z lies in the inclusive
band `mean ± √variance` (population variance, divide by N), in one
order-preserving pass; the pipeline reports `removedCount = original - kept`;
for z-values `[1,2,3,4,100]` the mean is 22, the population σ = √1522 lies
between 38.8 and 39.05, the kept values are exactly `[1,2,3,4]` and one point
is removed. -/
theorem filter_band_correct (ps : List Point) (p : Point) :
    (p ∈ filterPoints ps ↔ p ∈ ps ∧
        ((listMean (ps.map Point.z) : ℝ) - Real.sqrt (listVariance (ps.map Point.z)) ≤ (p.z : ℝ)
          ∧ (p.z : ℝ) ≤ (listMean (ps.map Point.z) : ℝ) + Real.sqrt (listVariance (ps.map Point.z))))
    ∧ (filterPoints ps).Sublist ps
    ∧ (∀ fo r, get_data fo ps = Except.ok r → r.outliers_removed = ps.length - r.points.length)
    ∧ listMean [1, 2, 3, 4, 100] = 22
    ∧ listVariance [1, 2, 3, 4, 100] = 1522
    ∧ (38.8 : ℝ) < Real.sqrt (listVariance [1, 2, 3, 4, 100])
    ∧ Real.sqrt (listVariance [1, 2, 3, 4, 100]) < (39.05 : ℝ)
    ∧ (filterPoints [⟨0,0,1⟩, ⟨1,0,2⟩, ⟨2,0,3⟩, ⟨3,0,4⟩, ⟨4,0,100⟩]).map Point.z = [1, 2, 3, 4]
    ∧ (∃ r, get_data true [⟨0,0,1⟩, ⟨1,0,2⟩, ⟨2,0,3⟩, ⟨3,0,4⟩, ⟨4,0,100⟩] = Except.ok r
        ∧ r.points.map Point.z = [1, 2, 3, 4] ∧ r.outliers_removed = 1) := by
  have hvar : listVariance ([1, 2, 3, 4, 100] : List ℚ) = 1522 := by decide
  refine ⟨?_, filterPoints_sublist ps, ?_, by decide, hvar, ?_, ?_, by decide, ?_⟩
  · rw [mem_filterPoints,
      sq_le_iff_band (listMean (ps.map Point.z)) (listVariance (ps.map Point.z)) p.z
        (listVariance_nonneg _)]
  · intro fo r hr
    obtain ⟨-, rfl⟩ := get_data_ok_iff.mp hr
    rfl
  · rw [hvar]
    rw [show (((1522 : ℚ) : ℝ)) = (1522 : ℝ) by norm_num]
    rw [show (38.8 : ℝ) = Real.sqrt (38.8 ^ 2) from (Real.sqrt_sq (by norm_num)).symm]
    apply Real.sqrt_lt_sqrt (by positivity)
    norm_num
  · rw [hvar]
    rw [show (((1522 : ℚ) : ℝ)) = (1522 : ℝ) by norm_num]
    rw [Real.sqrt_lt' (by norm_num)]
    norm_num
  · exact ⟨⟨[0, 1, 2, 3], [0], [[some 1, some 2, some 3, some 4]],
      [⟨0,0,1⟩, ⟨1,0,2⟩, ⟨2,0,3⟩, ⟨3,0,4⟩], 1, 5⟩, by decide, by decide, rfl⟩

/-- Witness for C2: the removed-count relation instantiated on the five-point
example, with the filtered pipeline run evaluated concretely. -/
theorem filter_band_correct_witness :
    (⟨[0, 1, 2, 3], [0], [[some 1, some 2, some 3, some 4]],
      [⟨0,0,1⟩, ⟨1,0,2⟩, ⟨2,0,3⟩, ⟨3,0,4⟩], 1, 5⟩ : SurfaceResult).outliers_removed
      = ([⟨0,0,1⟩, ⟨1,0,2⟩, ⟨2,0,3⟩, ⟨3,0,4⟩, ⟨4,0,100⟩] : List Point).length
        - (⟨[0, 1, 2, 3], [0], [[some 1, some 2, some 3, some 4]],
            [⟨0,0,1⟩, ⟨1,0,2⟩, ⟨2,0,3⟩, ⟨3,0,4⟩], 1, 5⟩ : SurfaceResult).points.length :=
  (filter_band_correct [⟨0,0,1⟩, ⟨1,0,2⟩, ⟨2,0,3⟩, ⟨3,0,4⟩, ⟨4,0,100⟩] pd).2.2.1 true
    ⟨[0, 1, 2, 3], [0], [[some 1, some 2, some 3, some 4]],
      [⟨0,0,1⟩, ⟨1,0,2⟩, ⟨2,0,3⟩, ⟨3,0,4⟩], 1, 5⟩ (by decide)

/-- **C5**: the comparison fails with `NoOverlap` iff the two coordinate-key
sets have empty intersection; otherwise each common coordinate yields exactly
one diff entry valued `z1 - z2`; concretely `(0,0)`-only vs `(1,1)`-only files
fail with `NoOverlap`, and `(0,0,5)` vs `(0,0,2)` yields the diff `(0,0,3)`. -/
theorem compare_overlap (fo : Bool) (ps1 ps2 : List Point) :
    (compare_files fo ps1 ps2 = .error .noOverlap ↔
      coordsFinset ps1 ∩ coordsFinset ps2 = ∅)
    ∧ ((differences ps1 ps2).map coordOf).Nodup
    ∧ (∀ c, c ∈ coordsFinset ps1 ∩ coordsFinset ps2 ↔
        ∃ d ∈ differences ps1 ps2, coordOf d = c)
    ∧ (∀ d ∈ differences ps1 ps2, ∃ z1 z2,
        point_map ps1 (coordOf d) = some z1 ∧ point_map ps2 (coordOf d) = some z2
          ∧ d.z = z1 - z2)
    ∧ (differences ps1 ps2).length = (coordsFinset ps1 ∩ coordsFinset ps2).card
    ∧ compare_files false [⟨0,0,5⟩] [⟨1,1,7⟩] = .error .noOverlap
    ∧ (∃ r, compare_files false [⟨0,0,5⟩] [⟨0,0,2⟩] = .ok r ∧ r.points = [⟨0,0,3⟩]) := by
  refine ⟨?_, ?_, ?_, fun d hd => (mem_differences hd).2, 
    (differences_length ps1 ps2).trans (commonCoords_length ps1 ps2), by decide, ?_⟩
  · constructor
    · intro h
      rcases compare_files_error_iff.mp h with ⟨hnil, -⟩ | ⟨-, -, habs⟩
      · exact commonCoords_eq_nil_iff.mp hnil
      · exact PipelineError.noConfusion habs
    · intro h
      exact compare_files_error_iff.mpr (Or.inl ⟨commonCoords_eq_nil_iff.mpr h, rfl⟩)
  · rw [differences_map_coordOf]
    exact commonCoords_nodup ps1 ps2
  · intro c
    constructor
    · intro hc
      exact commonCoords_mem_differences (mem_commonCoords_finset.mpr hc)
    · rintro ⟨d, hd, rfl⟩
      exact mem_commonCoords_finset.mp (mem_differences hd).1
  · exact ⟨⟨[0], [0], [[some 3]], [⟨0,0,3⟩], ⟨3, 3, 3, 3, 9, 1, 1, 1, 1, 0, 1⟩⟩,
      by decide, rfl⟩

/-- Witness for C5: two disjoint one-point files fail with `NoOverlap`. -/
theorem compare_overlap_witness :
    compare_files true [⟨2,2,1⟩] [⟨3,3,1⟩] = .error .noOverlap :=
  (compare_overlap true [⟨2,2,1⟩] [⟨3,3,1⟩]).1.mpr (by decide)

/-- **C7**: both pipelines fail with `EmptyResult` exactly when the
(possibly filtered) point/diff set is empty — in the comparison pipeline
additionally only after the overlap check passed — and then no grid is
built (the result is an error, not a payload). -/
theorem empty_result_error (fo : Bool) (ps ps1 ps2 : List Point) :
    (get_data fo ps = .error .emptyResult ↔ surviving fo ps = [])
    ∧ (∀ e, get_data fo ps = .error e → e = .emptyResult)
    ∧ (compare_files fo ps1 ps2 = .error .emptyResult ↔
        commonCoords ps1 ps2 ≠ [] ∧ surviving fo (differences ps1 ps2) = []) := by
  refine ⟨?_, fun e he => (get_data_error_iff.mp he).2, ?_⟩
  · constructor
    · intro h
      exact (get_data_error_iff.mp h).1
    · intro h
      exact get_data_error_iff.mpr ⟨h, rfl⟩
  · constructor
    · intro h
      rcases compare_files_error_iff.mp h with ⟨-, habs⟩ | ⟨h1, h2, -⟩
      · exact PipelineError.noConfusion habs
      · exact ⟨h1, h2⟩
    · intro h
      exact compare_files_error_iff.mpr (Or.inr ⟨h.1, h.2, rfl⟩)

/-- Witness for C7: the empty parse gives the `EmptyResult` failure. -/
theorem empty_result_error_witness :
    get_data false ([] : List Point) = .error .emptyResult :=
  (empty_result_error false [] [] []).1.mpr (by decide)

theorem listMean_nonneg {zs : List ℚ} (h : ∀ z ∈ zs, 0 ≤ z) : 0 ≤ listMean zs := by
  apply div_nonneg (List.sum_nonneg h) (Nat.cast_nonneg _)

/-- **C6**: on success the comparison stats are the min, max, arithmetic mean,
mean of absolute values and root-mean-square of the surviving diff values,
with `total_points` the surviving count, `matched_points` the pre-filter
intersection size, and `file1_points`/`file2_points` the parsed counts; for a
single surviving diff `d` the rms equals `|d|`. -/
theorem compare_stats_correct (fo : Bool) (ps1 ps2 : List Point) (r : CompareResult)
    (h : compare_files fo ps1 ps2 = .ok r) :
    (r.stats.min ∈ r.points.map Point.z ∧ ∀ v ∈ r.points.map Point.z, r.stats.min ≤ v)
    ∧ (r.stats.max ∈ r.points.map Point.z ∧ ∀ v ∈ r.points.map Point.z, v ≤ r.stats.max)
    ∧ r.stats.mean = (r.points.map Point.z).sum / ((r.points.map Point.z).length : ℚ)
    ∧ r.stats.mean_abs
        = ((r.points.map Point.z).map (fun d => |d|)).sum
          / (((r.points.map Point.z).map (fun d => |d|)).length : ℚ)
    ∧ r.stats.rms ^ 2
        = ((((r.points.map Point.z).map (fun d => d ^ 2)).sum / ((r.points.map Point.z).length : ℚ) : ℚ) : ℝ)
    ∧ 0 ≤ r.stats.rms
    ∧ (∀ d, r.points = [d] → r.stats.rms = |(d.z : ℝ)|)
    ∧ r.stats.total_points = r.points.length
    ∧ r.stats.matched_points = (coordsFinset ps1 ∩ coordsFinset ps2).card
    ∧ r.stats.file1_points = ps1.length
    ∧ r.stats.file2_points = ps2.length := by
  obtain ⟨hc, hs, rfl⟩ := compare_files_ok_iff.mp h
  have hne : (surviving fo (differences ps1 ps2)).map Point.z ≠ [] := by
    simpa using hs
  have hsq_nonneg : (0 : ℚ) ≤
      (((surviving fo (differences ps1 ps2)).map Point.z).map (fun d => d ^ 2)).sum
        / ((((surviving fo (differences ps1 ps2)).map Point.z)).length : ℚ) := by
    apply div_nonneg _ (Nat.cast_nonneg _)
    apply List.sum_nonneg
    intro z hz
    simp only [List.mem_map] at hz
    obtain ⟨-, ⟨d, -, rfl⟩, rfl⟩ := hz
    positivity
  refine ⟨⟨listMin_mem hne, fun v hv => listMin_le v hv⟩,
    ⟨listMax_mem hne, fun v hv => listMax_ge v hv⟩, rfl, rfl, ?_, ?_, ?_, rfl,
    commonCoords_length ps1 ps2, rfl, rfl⟩
  · show Real.sqrt _ ^ 2 = _
    exact Real.sq_sqrt (by exact_mod_cast hsq_nonneg)
  · exact Real.sqrt_nonneg _
  · intro d hd
    dsimp only at hd ⊢
    show Real.sqrt _ = _
    have hvals : (surviving fo (differences ps1 ps2)).map Point.z = [d.z] := by
      show (surviving fo (differences ps1 ps2)).map Point.z = [d.z]
      rw [show surviving fo (differences ps1 ps2) = [d] from hd]
      rfl
    rw [show (((surviving fo (differences ps1 ps2)).map Point.z).map (fun v => v ^ 2)).sum
          / ((((surviving fo (differences ps1 ps2)).map Point.z)).length : ℚ)
        = (([d.z] : List ℚ).map (fun v => v ^ 2)).sum / ((([d.z] : List ℚ)).length : ℚ) by
      rw [hvals]]
    have hmean : (([d.z] : List ℚ).map (fun v => v ^ 2)).sum / ((([d.z] : List ℚ)).length : ℚ)
        = d.z ^ 2 := by
      norm_num
    rw [hmean]
    rw [show ((d.z ^ 2 : ℚ) : ℝ) = (d.z : ℝ) ^ 2 by push_cast; ring]
    exact Real.sqrt_sq_eq_abs _

/-- Witness for C6 at the one-point comparison `(0,0,5)` vs `(0,0,2)`:
the rms of the single diff `3` is `|3|`. -/
theorem compare_stats_correct_witness :
    (⟨[0], [0], [[some 3]], [⟨0,0,3⟩], ⟨3, 3, 3, 3, 9, 1, 1, 1, 1, 0, 1⟩⟩ :
        CompareResult).stats.rms = |(((3 : ℚ)) : ℝ)| :=
  (compare_stats_correct false [⟨0,0,5⟩] [⟨0,0,2⟩]
      ⟨[0], [0], [[some 3]], [⟨0,0,3⟩], ⟨3, 3, 3, 3, 9, 1, 1, 1, 1, 0, 1⟩⟩
      (by decide)).2.2.2.2.2.2.1 ⟨0,0,3⟩ rfl

/-- **C8**: with at most one element the outlier filter is skipped in both
pipelines: the survivors equal the input, `removedCount = 0`, and
`total_before_filter` is the current count. -/
theorem filter_noop_small (fo : Bool) (ps ps1 ps2 : List Point)
    (h : ps.length ≤ 1) (h2 : (differences ps1 ps2).length ≤ 1) :
    surviving fo ps = ps
    ∧ removedCount fo ps = 0
    ∧ (ps = [] → get_data fo ps = .error .emptyResult)
    ∧ (ps ≠ [] → get_data fo ps = .ok ⟨x_values ps, y_values ps, z_grid ps, ps, 0, ps.length⟩)
    ∧ (commonCoords ps1 ps2 ≠ [] → ∃ r, compare_files fo ps1 ps2 = .ok r
        ∧ r.points = differences ps1 ps2
        ∧ r.stats.outliers_removed = 0
        ∧ r.stats.total_before_filter = (differences ps1 ps2).length) := by
  have hsv := surviving_of_le_one fo h
  have hrc := removedCount_of_le_one fo h
  refine ⟨hsv, hrc, ?_, ?_, ?_⟩
  · intro hnil
    apply get_data_error_iff.mpr
    exact ⟨by rw [hsv, hnil], rfl⟩
  · intro hne
    apply get_data_ok_iff.mpr
    refine ⟨by rw [hsv]; exact hne, ?_⟩
    rw [hsv, hrc]
  · intro hcne
    have hsv2 := surviving_of_le_one fo h2
    have hrc2 := removedCount_of_le_one fo h2
    have hdne : differences ps1 ps2 ≠ [] := by
      rw [← List.length_pos, differences_length]
      exact List.length_pos.mpr hcne
    refine ⟨_, compare_files_ok_iff.mpr ⟨hcne, by rw [hsv2]; exact hdne, rfl⟩, ?_, ?_, ?_⟩
    · show surviving fo (differences ps1 ps2) = differences ps1 ps2
      exact hsv2
    · show removedCount fo (differences ps1 ps2) = 0
      exact hrc2
    · rfl

/-- Witness for C8 on one-point inputs with filtering requested. -/
theorem filter_noop_small_witness :
    surviving true [⟨0,0,5⟩] = [⟨0,0,5⟩] ∧ removedCount true [⟨0,0,5⟩] = 0 :=
  ⟨(filter_noop_small true [⟨0,0,5⟩] [⟨0,0,5⟩] [⟨0,0,2⟩] (by decide) (by decide)).1,
   (filter_noop_small true [⟨0,0,5⟩] [⟨0,0,5⟩] [⟨0,0,2⟩] (by decide) (by decide)).2.1⟩

/-- **C9**: a nonempty value list always has a member inside the inclusive
1-σ band, so the filter never empties a nonempty set; hence `get_data` can
fail with `EmptyResult` only when the parse was already empty, and in the
comparison pipeline (where `NoOverlap` already guarantees a nonempty diff
set) the `EmptyResult` branch is unreachable. -/
theorem filter_keeps_one (ps : List Point) (h : ps ≠ []) :
    filterPoints ps ≠ []
    ∧ (∃ p ∈ ps,
        (listMean (ps.map Point.z) : ℝ) - Real.sqrt (listVariance (ps.map Point.z)) ≤ (p.z : ℝ)
        ∧ (p.z : ℝ) ≤ (listMean (ps.map Point.z) : ℝ) + Real.sqrt (listVariance (ps.map Point.z)))
    ∧ (∀ fo, get_data fo ps ≠ .error .emptyResult)
    ∧ (∀ fo ps', get_data fo ps' = .error .emptyResult → ps' = [])
    ∧ (∀ fo qs1 qs2, compare_files fo qs1 qs2 ≠ .error .emptyResult) := by
  refine ⟨filterPoints_ne_nil h, ?_, ?_, ?_, ?_⟩
  · have hne : ps.map Point.z ≠ [] := by simpa using h
    obtain ⟨z, hz, hband⟩ := exists_mem_band hne
    obtain ⟨p, hp, rfl⟩ := List.mem_map.mp hz
    exact ⟨p, hp, (sq_le_iff_band _ _ _ (listVariance_nonneg _)).mp hband⟩
  · intro fo hcon
    exact surviving_ne_nil fo h (get_data_error_iff.mp hcon).1
  · intro fo ps' he
    by_contra hne
    exact surviving_ne_nil fo hne (get_data_error_iff.mp he).1
  · intro fo qs1 qs2 hcon
    rcases compare_files_error_iff.mp hcon with ⟨-, habs⟩ | ⟨h1, h2, -⟩
    · exact PipelineError.noConfusion habs
    · have hdne : differences qs1 qs2 ≠ [] := by
        rw [← List.length_pos, differences_length]
        exact List.length_pos.mpr h1
      exact surviving_ne_nil fo hdne h2

/-- Witness for C9 on a one-point set. -/
theorem filter_keeps_one_witness : filterPoints [⟨0,0,5⟩] ≠ [] :=
  (filter_keeps_one [⟨0,0,5⟩] (by decide)).1

/-- **C10**: grid building is deterministic and idempotent, and the grid
depends only on the coordinate-map content: equal maps give equal grids, and
permuting a duplicate-free point list (such as the diff list produced from
the set-ordered coordinate intersection) leaves the grid unchanged. -/
theorem grid_idempotent_deterministic (ps l1 l2 m1 m2 : List Point)
    (hmap : ∀ c, point_map l1 c = point_map l2 c)
    (hperm : m1.Perm m2) (hnd : (m1.map coordOf).Nodup) :
    z_grid ps = z_grid ps
    ∧ (x_values l1 = x_values l2 ∧ y_values l1 = y_values l2 ∧ z_grid l1 = z_grid l2)
    ∧ (x_values m1 = x_values m2 ∧ y_values m1 = y_values m2 ∧ z_grid m1 = z_grid m2) :=
  ⟨rfl, grid_determined_by_map hmap,
    grid_determined_by_map (point_map_perm hperm hnd)⟩

/-- Witness for C10: collapsing the duplicate `(0,0)` writes to the final one
gives the same grid, and transposing a duplicate-free list does too. -/
theorem grid_idempotent_deterministic_witness :
    z_grid [⟨0,0,1⟩, ⟨0,0,2⟩] = z_grid [⟨0,0,2⟩]
    ∧ z_grid [⟨0,0,1⟩, ⟨1,1,2⟩] = z_grid [⟨1,1,2⟩, ⟨0,0,1⟩] := by
  have hmap : ∀ c, point_map [⟨0,0,1⟩, ⟨0,0,2⟩] c = point_map [⟨0,0,2⟩] c := by
    intro c
    rcases eq_or_ne ((0 : ℚ), (0 : ℚ)) c with hc | hc
    · subst hc
      decide
    · have h1 : point_map [⟨0,0,1⟩, ⟨0,0,2⟩] c = none := by
        rw [point_map_eq_none_iff]
        intro p hp
        rcases List.mem_cons.mp hp with rfl | hp2
        · simpa [coordOf] using hc
        · rcases List.mem_cons.mp hp2 with rfl | hp3
          · simpa [coordOf] using hc
          · simp at hp3
      have h2 : point_map [⟨0,0,2⟩] c = none := by
        rw [point_map_eq_none_iff]
        intro p hp
        rcases List.mem_cons.mp hp with rfl | hp2
        · simpa [coordOf] using hc
        · simp at hp2
      rw [h1, h2]
  have h := grid_idempotent_deterministic [] [⟨0,0,1⟩, ⟨0,0,2⟩] [⟨0,0,2⟩]
    [⟨0,0,1⟩, ⟨1,1,2⟩] [⟨1,1,2⟩, ⟨0,0,1⟩] hmap (by decide) (by decide)
  exact ⟨h.2.1.2.2, h.2.2.2.2⟩

end

end Autoleveler
